import Mathlib

/-!
Verification development for the deep-knn repository.

The file shallowly embeds the scoring / ranking pipeline of `l1o.py` and the
deep-kNN build phase of `train_text_classifier.py`.  Token sequences are
`List ℕ` (word identifiers), scores are exact rationals `ℚ` standing for the
floating point scalars of the source.  The `DkNN` scorer object itself lives
in `run_dknn.py`, which is not among the given source files; its scoring
entry points are therefore abstract fields of a structure, modelled from the
specification of `DkNNScorer`.
-/

namespace DeepKnn

/-- Error raised by `flatten` in `l1o.py` when the probe sequence is too
short to perturb (the `assert x.shape[0] > 1` on line 45). -/
inductive RankErr where
  | degenerateSequence
deriving DecidableEq, Repr

/-- `flatten(x)` from `l1o.py` lines 42-51: asserts the sequence is
one-dimensional of length > 1, then for every position `i` produces the
variant `np.concatenate((x[:i], x[i+1:]))`, i.e. `x` with position `i`
spliced out.  A failed assertion is an error. -/
def flatten {α : Type} (x : List α) : Except RankErr (List (List α)) :=
  if 1 < x.length then
    Except.ok ((List.range x.length).map (fun i => x.take i ++ x.drop (i + 1)))
  else
    Except.error RankErr.degenerateSequence

/-- Modelled from the spec: the `DkNNScorer` of `run_dknn.py` (not among the
given source files).  `predictOne` is `dknn.predict([x])` restricted to a
single input, returning the predicted label and the primary score;
`neighborChangeOne` is `dknn.get_neighbor_change([variant], [x])`;
`confidenceOne` is the per-(input, label) confidence underlying
`dknn.get_regular_confidence`. -/
structure DkNN (α σ : Type) where
  predictOne : List α → Nat × σ
  neighborChangeOne : List α → List α → σ
  confidenceOne : List α → Nat → σ

/-- Modelled from the spec: `get_regular_confidence(xs, ys)` returns, for
each (input, label) pair, the plain output-distribution confidence for the
given label. -/
def get_regular_confidence {α σ : Type} (d : DkNN α σ) (xs : List (List α))
    (ys : List Nat) : List σ :=
  (xs.zip ys).map (fun p => d.confidenceOne p.1 p.2)

/-- `leave_one_out(dknn, x, use_credibility)` from `l1o.py` lines 54-78:
score the unmodified probe once to fix the label `y` and baseline score,
generate the token-removed variants, build the constant label list
`ys = [int(y) for _ in xs]`, then score each variant either with
`get_neighbor_change` (credibility mode) or `get_regular_confidence`. -/
def leave_one_out {α σ : Type} (d : DkNN α σ) (x : List α)
    (use_credibility : Bool) : Except RankErr (Nat × σ × List σ) :=
  let y := (d.predictOne x).1
  let original_score := (d.predictOne x).2
  match flatten x with
  | Except.error e => Except.error e
  | Except.ok xs =>
    let ys := xs.map (fun _ => y)
    let scores :=
      if use_credibility then
        xs.map (fun input_x => d.neighborChangeOne input_x x)
      else
        get_regular_confidence d xs ys
    Except.ok (y, original_score, scores)

/-- Modelled from the spec: the gradient-saliency scorer used by
`vanilla_grad` in `l1o.py` lines 81-92.  `predictOne` abstracts the single
forward pass `model.predict([x], softmax=True)` together with its
`argmax` / `max`, and `onehotGradOne` abstracts
`model.get_onehot_grad([x])[0]` (the model methods are not among the given
source files). -/
structure GradModel (α σ : Type) where
  predictOne : List α → Nat × σ
  onehotGradOne : List α → List σ

/-- `vanilla_grad(model, x)` from `l1o.py` lines 81-92: one forward pass on
the unmodified probe fixes the label and score; the per-position values are
the one-hot gradient of the unmodified probe, with no variant scoring. -/
def vanilla_grad {α σ : Type} (g : GradModel α σ) (x : List α) :
    Nat × σ × List σ :=
  ((g.predictOne x).1, (g.predictOne x).2, g.onehotGradOne x)

/-- The `--interp_method` values of `l1o.py`. -/
inductive InterpMethod where
  | dknn
  | softmax
  | grad
deriving DecidableEq, Repr

/-- The raw importance of one position (`l1o.py` lines 199-202):
`score - original_score` for the dknn and softmax methods, the score
itself for the gradient method. -/
def rawOne (m : InterpMethod) (original_score score : ℚ) : ℚ :=
  if m = InterpMethod.dknn ∨ m = InterpMethod.softmax then
    score - original_score
  else
    score

/-- `l1o.py` lines 196-202: the raw importance list appended position by
position. -/
def rawImportances (m : InterpMethod) (original_score : ℚ)
    (scores : List ℚ) : List ℚ :=
  scores.map (fun score => rawOne m original_score score)

/-- The per-element sign flip of `l1o.py` line 205. -/
def adjOne (prediction : Nat) (n : ℚ) : ℚ :=
  if prediction = 1 then -1 * n else n

/-- `l1o.py` lines 204-205: `if prediction == 1: normalized_scores =
[-1 * n for n in normalized_scores]`. -/
def signAdjust (prediction : Nat) (ns : List ℚ) : List ℚ :=
  if prediction = 1 then ns.map (fun n => -1 * n) else ns

/-- The additive floor `1e-6` of `l1o.py` lines 210-211. -/
def floorConst : ℚ := 1 / 1000000

/-- One step of the accumulation loop of `l1o.py` lines 212-216: a negative
score adds its absolute value to the negative total, a non-negative score
adds itself to the positive total.  The pair is `(total_score_pos,
total_score_neg)`. -/
def normStep (t : ℚ × ℚ) (s : ℚ) : ℚ × ℚ :=
  if s < 0 then (t.1, t.2 + |s|) else (t.1 + s, t.2)

/-- `l1o.py` lines 210-216: both totals start at the `1e-6` floor and the
list is folded through `normStep`. -/
def normTotals (ns : List ℚ) : ℚ × ℚ :=
  ns.foldl normStep (floorConst, floorConst)

/-- One element of the rescaling loop of `l1o.py` lines 217-221: a negative
score becomes `(s / total_score_neg) / 2`, a non-negative one
`(s / total_score_pos) / 2`. -/
def normOne (total_pos total_neg s : ℚ) : ℚ :=
  if s < 0 then s / total_neg / 2 else s / total_pos / 2

/-- `l1o.py` lines 210-221: two-sided normalization of the whole list. -/
def normalizeScores (ns : List ℚ) : List ℚ :=
  ns.map (fun s => normOne (normTotals ns).1 (normTotals ns).2 s)

/-- `l1o.py` line 231: `normalized_scores = [0.5 + n for n in
normalized_scores]`. -/
def centerScores (ns : List ℚ) : List ℚ :=
  ns.map (fun n => 1 / 2 + n)

/-- The per-position value the whole normalization of `l1o.py` lines
210-231 assigns to a raw importance `s` occurring in the list `ns`. -/
def finalScore (ns : List ℚ) (s : ℚ) : ℚ :=
  1 / 2 + normOne (normTotals ns).1 (normTotals ns).2 s

/-- Comparison key of `sorted(list(enumerate(scores)), key=lambda x: x[1])`
on `l1o.py` line 176: pairs are ordered by their score component. -/
def rankLE (a b : Nat × ℚ) : Prop := a.2 ≤ b.2

instance : DecidableRel rankLE :=
  fun a b => inferInstanceAs (Decidable (a.2 ≤ b.2))

instance : IsTotal (Nat × ℚ) rankLE :=
  ⟨fun a b => le_total a.2 b.2⟩

instance : IsTrans (Nat × ℚ) rankLE :=
  ⟨fun _ _ _ h h2 => le_trans h h2⟩

/-- `l1o.py` line 176: the importance ranking is the list of
(position, score) pairs sorted ascending by score. -/
def importanceRanking (scores : List ℚ) : List (Nat × ℚ) :=
  List.insertionSort rankLE scores.enum

/-- The visualization sequence of `l1o.py` lines 196-231: raw importances,
then the sign flip for a positive prediction, then the two-sided
normalization, then the `+0.5` shift. -/
def visualPipeline (m : InterpMethod) (prediction : Nat)
    (original_score : ℚ) (scores : List ℚ) : List ℚ :=
  centerScores (normalizeScores (signAdjust prediction
    (rawImportances m original_score scores)))

/-- The batch loop of `l1o.py` main, lines 144-184: probes are processed in
order with no per-probe exception handling, so a failing probe stops the
loop — probes before it have produced their results, probes after it are
never processed.  The first component collects the completed results, the
second records the propagated error, if any. -/
def runBatch {α σ : Type} (d : DkNN α σ) (use_credibility : Bool) :
    List (List α) → List (Nat × σ × List σ) × Option RankErr
  | [] => ([], none)
  | x :: rest =>
    match leave_one_out d x use_credibility with
    | Except.error e => ([], some e)
    | Except.ok r =>
      let t := runBatch d use_credibility rest
      (r :: t.1, t.2)

/-- The nearpy `Engine` of `train_text_classifier.py` lines 169-174,
modelled from the spec boundary: a nearest-neighbor structure holding
(vector, identifier) pairs inserted by `store_vector(element, ind)`. -/
structure Engine where
  stored : List (List ℚ × Nat)
deriving DecidableEq, Repr

/-- `train_text_classifier.py` lines 172-174: one Engine is constructed and
every element of the pooled `layers_act_list` is stored in it under its
enumeration index. -/
def buildActivationTree (layers_act_list : List (List ℚ)) : Engine :=
  ⟨layers_act_list.enum.map (fun p => (p.2, p.1))⟩

/-- Errors the build phase of `train_text_classifier.py` can signal.
`emptyTrainingSet` is the distinguished `EmptyTrainingSetError` named by
the specification; no such error class exists anywhere in the source, the
constructor is present only so the taxonomy can be stated.
`indexOutOfRange` is the Python `IndexError` raised by
`layers_act_list[0]` on line 168 when the list is empty. -/
inductive BuildErr where
  | emptyTrainingSet
  | indexOutOfRange
deriving DecidableEq, Repr

/-- The deep-kNN build phase of `train_text_classifier.py` lines 139-174.
`f` abstracts `model.deep_knn_predict` restricted to one example (the
model method is not among the given source files), returning the argmax
predicted label appended to `label_list` and the activation vector
appended to `layers_act_list`, index-aligned as in the spec data model.
`num_dimensions = layers_act_list[0].shape[0]` reads the head of the list,
an index error when the training set is empty; otherwise the single
activation tree is built over the whole pooled list. -/
def buildPhase (f : List ℕ → Nat × List ℚ) (train : List (List ℕ)) :
    Except BuildErr (Nat × Engine × List Nat) :=
  let label_list := train.map (fun x => (f x).1)
  let layers_act_list := train.map (fun x => (f x).2)
  match layers_act_list with
  | [] => Except.error BuildErr.indexOutOfRange
  | a :: rest =>
    Except.ok (a.length, buildActivationTree (a :: rest), label_list)

/-- Squared Euclidean distance between activation vectors, the metric of
the nearest-neighbor query (spec section 4.1: exact Euclidean ordering). -/
def sqDist (a b : List ℚ) : ℚ :=
  ((a.zip b).map (fun p => (p.1 - p.2) * (p.1 - p.2))).sum

/-- Ordering of stored entries by distance to the query vector. -/
def nearerTo (q : List ℚ) (a b : List ℚ × Nat) : Prop :=
  sqDist a.1 q ≤ sqDist b.1 q

instance (q : List ℚ) : DecidableRel (nearerTo q) :=
  fun a b => inferInstanceAs (Decidable (sqDist a.1 q ≤ sqDist b.1 q))

instance (q : List ℚ) : IsTotal (List ℚ × Nat) (nearerTo q) :=
  ⟨fun a b => le_total (sqDist a.1 q) (sqDist b.1 q)⟩

instance (q : List ℚ) : IsTrans (List ℚ × Nat) (nearerTo q) :=
  ⟨fun _ _ _ h h2 => le_trans h h2⟩

/-- Modelled from the spec: `Engine.neighbours` (`train_text_classifier.py`
line 197; the nearpy library is outside the source) returns stored
(vector, identifier) entries ordered by increasing distance to the query,
truncated to at most `k`. -/
def Engine.neighbours (e : Engine) (q : List ℚ) (k : Nat) :
    List (List ℚ × Nat) :=
  (List.insertionSort (nearerTo q) e.stored).take k

/-- A concrete scorer for witnesses: label is the head token mod 2, scores
count tokens. -/
def dknn0 : DkNN ℕ ℚ :=
  ⟨fun x => (x.headD 0 % 2, (x.length : ℚ)),
   fun v x => (v.length : ℚ) - (x.length : ℚ),
   fun v y => (v.length : ℚ) + (y : ℚ)⟩

/-- A concrete gradient model for witnesses. -/
def grad0 : GradModel ℕ ℚ :=
  ⟨fun x => (x.headD 0 % 2, (x.length : ℚ)),
   fun x => x.map (fun t => (t : ℚ))⟩

/-- A concrete activation source for the C10 witness: label is the head
token mod 2, the activation is the head token as a one-dimensional
vector. -/
def f0 : List ℕ → Nat × List ℚ := fun x => (x.headD 0 % 2, [(x.headD 0 : ℚ)])

/-! ### Lemmas about the two-sided normalization -/

theorem normStep_le (t : ℚ × ℚ) (s : ℚ) :
    t.1 ≤ (normStep t s).1 ∧ t.2 ≤ (normStep t s).2 := by
  unfold normStep
  split
  · dsimp only
    exact ⟨le_refl _, by have := abs_nonneg s; linarith⟩
  · rename_i hs
    push_neg at hs
    dsimp only
    exact ⟨by linarith, le_refl _⟩

theorem foldl_normStep_le (ns : List ℚ) :
    ∀ t : ℚ × ℚ, t.1 ≤ (ns.foldl normStep t).1 ∧ t.2 ≤ (ns.foldl normStep t).2 := by
  induction ns with
  | nil => exact fun t => ⟨le_refl _, le_refl _⟩
  | cons s rest ih =>
    intro t
    have h1 := normStep_le t s
    have h2 := ih (normStep t s)
    simp only [List.foldl_cons]
    exact ⟨le_trans h1.1 h2.1, le_trans h1.2 h2.2⟩

theorem foldl_normStep_mem (ns : List ℚ) :
    ∀ (t : ℚ × ℚ) (s : ℚ), s ∈ ns →
      (0 ≤ s → t.1 + s ≤ (ns.foldl normStep t).1) ∧
      (s < 0 → t.2 + (-s) ≤ (ns.foldl normStep t).2) := by
  induction ns with
  | nil => intro t s hs; cases hs
  | cons a rest ih =>
    intro t s hs
    simp only [List.foldl_cons]
    rcases List.mem_cons.mp hs with h | h
    · subst h
      have hrest := foldl_normStep_le rest (normStep t s)
      constructor
      · intro hpos
        have hstep : (normStep t s).1 = t.1 + s := by
          unfold normStep
          rw [if_neg (not_lt.mpr hpos)]
        rw [hstep] at hrest
        exact hrest.1
      · intro hneg
        have hstep : (normStep t s).2 = t.2 + (-s) := by
          unfold normStep
          rw [if_pos hneg, abs_of_neg hneg]
        rw [hstep] at hrest
        exact hrest.2
    · have hmem := ih (normStep t a) s h
      have hstep := normStep_le t a
      constructor
      · intro hpos
        have := hmem.1 hpos
        linarith [hstep.1]
      · intro hneg
        have := hmem.2 hneg
        linarith [hstep.2]

theorem normTotals_fst_pos (ns : List ℚ) : 0 < (normTotals ns).1 := by
  have h := (foldl_normStep_le ns (floorConst, floorConst)).1
  have hf : (0 : ℚ) < floorConst := by norm_num [floorConst]
  unfold normTotals
  calc (0 : ℚ) < floorConst := hf
    _ ≤ _ := h

theorem normTotals_snd_pos (ns : List ℚ) : 0 < (normTotals ns).2 := by
  have h := (foldl_normStep_le ns (floorConst, floorConst)).2
  have hf : (0 : ℚ) < floorConst := by norm_num [floorConst]
  unfold normTotals
  calc (0 : ℚ) < floorConst := hf
    _ ≤ _ := h

theorem normTotals_fst_ge (ns : List ℚ) (s : ℚ) (hs : s ∈ ns) (h : 0 ≤ s) :
    floorConst + s ≤ (normTotals ns).1 :=
  (foldl_normStep_mem ns (floorConst, floorConst) s hs).1 h

theorem normTotals_snd_ge (ns : List ℚ) (s : ℚ) (hs : s ∈ ns) (h : s < 0) :
    floorConst + (-s) ≤ (normTotals ns).2 :=
  (foldl_normStep_mem ns (floorConst, floorConst) s hs).2 h

theorem finalScore_of_neg (ns : List ℚ) (s : ℚ) (hs : s ∈ ns) (h : s < 0) :
    finalScore ns s ∈ Set.Icc (0 : ℚ) (1 / 2) := by
  have hpos := normTotals_snd_pos ns
  have hge := normTotals_snd_ge ns s hs h
  have hf : (0 : ℚ) < floorConst := by norm_num [floorConst]
  set tneg := (normTotals ns).2 with htneg
  have hub : s / tneg / 2 ≤ 0 := by
    have : s / tneg ≤ 0 := div_nonpos_of_nonpos_of_nonneg (le_of_lt h) (le_of_lt hpos)
    linarith
  have hlb : -(1 / 2 : ℚ) ≤ s / tneg / 2 := by
    have h1 : (-1 : ℚ) ≤ s / tneg := by
      rw [le_div_iff₀ hpos]
      linarith
    linarith
  unfold finalScore normOne
  rw [if_pos h]
  constructor
  · linarith
  · linarith

theorem finalScore_of_nonneg (ns : List ℚ) (s : ℚ) (hs : s ∈ ns) (h : 0 ≤ s) :
    finalScore ns s ∈ Set.Icc (1 / 2 : ℚ) 1 := by
  have hpos := normTotals_fst_pos ns
  have hge := normTotals_fst_ge ns s hs h
  have hf : (0 : ℚ) < floorConst := by norm_num [floorConst]
  set tpos := (normTotals ns).1 with htpos
  have hlb : 0 ≤ s / tpos / 2 := by
    have : 0 ≤ s / tpos := div_nonneg h (le_of_lt hpos)
    linarith
  have hub : s / tpos / 2 ≤ 1 / 2 := by
    have h1 : s / tpos ≤ 1 := by
      rw [div_le_one hpos]
      linarith
    linarith
  unfold finalScore normOne
  rw [if_neg (not_lt.mpr h)]
  constructor
  · linarith
  · linarith

/-- C1: after sign adjustment, the two-sided normalization of `l1o.py`
lines 210-231 (per-partition totals floored at `1e-6`, per-partition
rescaling halved, then the `+0.5` shift) assigns every position a final
value in `[0, 1]`: a position with negative raw importance lands in
`[0, 0.5]`, a position with non-negative raw importance lands in
`[0.5, 1]`, and both partition totals are strictly positive, so neither
division can be by zero even when a partition is empty. -/
theorem c1_two_sided_normalization (ns : List ℚ) (i : Nat) (h : i < ns.length) :
    0 < (normTotals ns).1 ∧ 0 < (normTotals ns).2 ∧
    centerScores (normalizeScores ns) = ns.map (finalScore ns) ∧
    finalScore ns (ns.get ⟨i, h⟩) ∈ Set.Icc (0 : ℚ) 1 ∧
    (ns.get ⟨i, h⟩ < 0 →
      finalScore ns (ns.get ⟨i, h⟩) ∈ Set.Icc (0 : ℚ) (1 / 2)) ∧
    (0 ≤ ns.get ⟨i, h⟩ →
      finalScore ns (ns.get ⟨i, h⟩) ∈ Set.Icc (1 / 2 : ℚ) 1) := by
  have hmem : ns.get ⟨i, h⟩ ∈ ns := List.get_mem ns i h
  refine ⟨normTotals_fst_pos ns, normTotals_snd_pos ns, ?_, ?_, ?_, ?_⟩
  · simp only [centerScores, normalizeScores, List.map_map]
    rfl
  · rcases lt_or_le (ns.get ⟨i, h⟩) 0 with hneg | hnn
    · have := finalScore_of_neg ns _ hmem hneg
      exact ⟨this.1, by linarith [this.2]⟩
    · have := finalScore_of_nonneg ns _ hmem hnn
      exact ⟨by linarith [this.1], this.2⟩
  · exact fun hneg => finalScore_of_neg ns _ hmem hneg
  · exact fun hnn => finalScore_of_nonneg ns _ hmem hnn

/-- Witness for C1 at the concrete raw importances `[-1, 2]`, position 0. -/
theorem c1_two_sided_normalization_witness :
    0 < (normTotals [-1, 2]).1 ∧ 0 < (normTotals [-1, 2]).2 ∧
    centerScores (normalizeScores [-1, 2]) =
      ([-1, 2] : List ℚ).map (finalScore [-1, 2]) ∧
    finalScore [-1, 2] (-1) ∈ Set.Icc (0 : ℚ) (1 / 2) := by
  have h := c1_two_sided_normalization [-1, 2] 0 (by decide)
  have hg : List.get ([-1, 2] : List ℚ) ⟨0, by decide⟩ = -1 := rfl
  refine ⟨h.1, h.2.1, h.2.2.1, ?_⟩
  have hb := h.2.2.2.2.1 (by rw [hg]; norm_num)
  rw [hg] at hb
  exact hb

/-! ### Variant generation and leave-one-out -/

theorem flatten_ok {α : Type} (x : List α) (hx : 1 < x.length) :
    flatten x =
      Except.ok ((List.range x.length).map
        (fun i => x.take i ++ x.drop (i + 1))) := by
  unfold flatten
  rw [if_pos hx]

theorem flatten_err {α : Type} (x : List α) (hx : ¬ 1 < x.length) :
    flatten x = Except.error RankErr.degenerateSequence := by
  unfold flatten
  rw [if_neg hx]

/-- C2: in token-removal mode variant generation succeeds exactly when the
probe has length > 1 (a degenerate-sequence error otherwise); on success
there are exactly `L` variants, the `i`-th being the probe with position
`i` spliced out (length `L - 1`, remaining order preserved), and both the
score list and the importance ranking that `leave_one_out` feeds have
length `L`. -/
theorem c2_variant_generation {α : Type} (x : List α) :
    ((∃ vs, flatten x = Except.ok vs) ↔ 1 < x.length) ∧
    (x.length ≤ 1 → flatten x = Except.error RankErr.degenerateSequence) ∧
    (∀ vs, flatten x = Except.ok vs →
      vs.length = x.length ∧
      ∀ i (hi : i < vs.length),
        vs.get ⟨i, hi⟩ = x.eraseIdx i ∧
        (vs.get ⟨i, hi⟩).length = x.length - 1) ∧
    (∀ (d : DkNN α ℚ) (b : Bool) (y : Nat) (s0 : ℚ) (scores : List ℚ),
      leave_one_out d x b = Except.ok (y, s0, scores) →
      scores.length = x.length ∧
      (importanceRanking scores).length = x.length) := by
  by_cases hx : 1 < x.length
  · refine ⟨⟨fun _ => hx, fun _ => ⟨_, flatten_ok x hx⟩⟩, fun hc => absurd hx (by omega), ?_, ?_⟩
    · intro vs hvs
      rw [flatten_ok x hx] at hvs
      injection hvs with hvs
      subst hvs
      constructor
      · simp
      · intro i hi
        have hil : i < x.length := by simpa using hi
        have hget : (((List.range x.length).map
            (fun i => x.take i ++ x.drop (i + 1))).get ⟨i, hi⟩) =
            x.take i ++ x.drop (i + 1) := by
          simp [List.get_eq_getElem]
        rw [hget]
        constructor
        · rw [List.eraseIdx_eq_take_drop_succ]
        · rw [← List.eraseIdx_eq_take_drop_succ, List.length_eraseIdx_of_lt hil]
    · intro d b y s0 scores h
      unfold leave_one_out at h
      rw [flatten_ok x hx] at h
      simp only [Except.ok.injEq, Prod.mk.injEq] at h
      obtain ⟨-, -, hscores⟩ := h
      have hlen : scores.length = x.length := by
        subst hscores
        cases b with
        | true => simp
        | false => simp [get_regular_confidence]
      exact ⟨hlen, by simp [importanceRanking, hlen]⟩
  · refine ⟨⟨?_, fun hc => absurd hc hx⟩, fun _ => flatten_err x hx, ?_, ?_⟩
    · rintro ⟨vs, hvs⟩
      rw [flatten_err x hx] at hvs
      cases hvs
    · intro vs hvs
      rw [flatten_err x hx] at hvs
      cases hvs
    · intro d b y s0 scores h
      unfold leave_one_out at h
      rw [flatten_err x hx] at h
      cases h

/-- Witness for C2 at the concrete probe `[7, 8, 9]`. -/
theorem c2_variant_generation_witness :
    (∃ vs, flatten ([7, 8, 9] : List ℕ) = Except.ok vs) ∧
    ∀ vs, flatten ([7, 8, 9] : List ℕ) = Except.ok vs → vs.length = 3 := by
  have h := c2_variant_generation ([7, 8, 9] : List ℕ)
  refine ⟨h.1.mpr (by decide), fun vs hvs => ?_⟩
  exact (h.2.2.1 vs hvs).1

theorem zip_map_const_map {β γ δ : Type} (vs : List β) (y : γ) (f : β → γ → δ) :
    (vs.zip (vs.map (fun _ => y))).map (fun p => f p.1 p.2) =
      vs.map (fun v => f v y) := by
  induction vs with
  | nil => rfl
  | cons a rest ih => simpa using ih

/-- C3: every variant is scored against the one label obtained by scoring
the unmodified probe once.  In credibility mode the variants are compared
to the original probe with no per-variant label at all; in
regular-confidence mode the label list handed to the scorer is the constant
list of that single predicted label; in gradient mode both the label and
the per-position values come from the single forward pass over the
unmodified probe.  No scoring path re-predicts a label for a variant. -/
theorem c3_fixed_label {α σ : Type} (d : DkNN α σ) (g : GradModel α σ)
    (x : List α) (vs : List (List α)) (hvs : flatten x = Except.ok vs) :
    leave_one_out d x true =
      Except.ok ((d.predictOne x).1, (d.predictOne x).2,
        vs.map (fun v => d.neighborChangeOne v x)) ∧
    leave_one_out d x false =
      Except.ok ((d.predictOne x).1, (d.predictOne x).2,
        get_regular_confidence d vs
          (vs.map (fun _ => (d.predictOne x).1))) ∧
    get_regular_confidence d vs (vs.map (fun _ => (d.predictOne x).1)) =
      vs.map (fun v => d.confidenceOne v (d.predictOne x).1) ∧
    vanilla_grad g x =
      ((g.predictOne x).1, (g.predictOne x).2, g.onehotGradOne x) := by
  refine ⟨?_, ?_, ?_, rfl⟩
  · unfold leave_one_out
    rw [hvs]
    rfl
  · unfold leave_one_out
    rw [hvs]
    rfl
  · exact zip_map_const_map vs (d.predictOne x).1 (fun v y => d.confidenceOne v y)

/-- Witness for C3 at the concrete probe `[1, 2]`. -/
theorem c3_fixed_label_witness :
    leave_one_out dknn0 [1, 2] false =
      Except.ok ((dknn0.predictOne [1, 2]).1, (dknn0.predictOne [1, 2]).2,
        get_regular_confidence dknn0 [[2], [1]]
          (([[2], [1]] : List (List ℕ)).map
            (fun _ => (dknn0.predictOne [1, 2]).1))) := by
  have h := c3_fixed_label dknn0 grad0 [1, 2] [[2], [1]] rfl
  exact h.2.1

/-! ### Raw importances, sign flip, ranking and alignment -/

theorem rawImportances_eq_map (m : InterpMethod) (s0 : ℚ) (scores : List ℚ) :
    rawImportances m s0 scores = scores.map (rawOne m s0) := rfl

theorem signAdjust_eq_map (p : Nat) (ns : List ℚ) :
    signAdjust p ns = ns.map (adjOne p) := by
  unfold signAdjust adjOne
  split
  · rename_i h
    simp [h]
  · rename_i h
    simp [h]

theorem signAdjust_length (p : Nat) (ns : List ℚ) :
    (signAdjust p ns).length = ns.length := by
  rw [signAdjust_eq_map]
  simp

theorem center_normalize_eq_map (ns : List ℚ) :
    centerScores (normalizeScores ns) = ns.map (finalScore ns) := by
  simp only [centerScores, normalizeScores, List.map_map]
  rfl

/-- C4: for the dknn and softmax methods the raw importance of each
position is the variant score minus the baseline score, and ranking by
these importances gives exactly the positional order of the score ranking
(each entry merely shifted by the baseline); for the gradient method the
scores are used directly, with no baseline subtraction. -/
theorem c4_raw_importance (m : InterpMethod) (s0 : ℚ) (scores : List ℚ) :
    ((m = InterpMethod.dknn ∨ m = InterpMethod.softmax) →
      rawImportances m s0 scores = scores.map (fun s => s - s0) ∧
      importanceRanking (rawImportances m s0 scores) =
        (importanceRanking scores).map (Prod.map id (fun s => s - s0))) ∧
    (m = InterpMethod.grad → rawImportances m s0 scores = scores) := by
  constructor
  · intro hm
    have hmap : rawImportances m s0 scores = scores.map (fun s => s - s0) := by
      unfold rawImportances rawOne
      rcases hm with h | h <;> subst h <;> simp
    refine ⟨hmap, ?_⟩
    rw [hmap]
    unfold importanceRanking
    rw [List.enum_map]
    have hl : ∀ a ∈ scores.enum, ∀ b ∈ scores.enum,
        rankLE a b ↔ rankLE (Prod.map id (fun s => s - s0) a)
          (Prod.map id (fun s => s - s0) b) := by
      intro a _ b _
      unfold rankLE
      simp only [Prod.map_snd]
      constructor <;> intro <;> linarith
    rw [← List.map_insertionSort rankLE rankLE
      (Prod.map id (fun s => s - s0)) scores.enum hl]
  · intro hm
    subst hm
    unfold rawImportances rawOne
    simp

/-- Witness for C4 at method softmax, baseline 2, scores `[5, 1]`. -/
theorem c4_raw_importance_witness :
    rawImportances InterpMethod.softmax 2 [5, 1] =
      ([5, 1] : List ℚ).map (fun s => s - 2) ∧
    importanceRanking (rawImportances InterpMethod.softmax 2 [5, 1]) =
      (importanceRanking [5, 1]).map (Prod.map id (fun s => s - 2)) :=
  (c4_raw_importance InterpMethod.softmax 2 [5, 1]).1 (Or.inr rfl)

/-- C5: the raw importances are all negated exactly when the predicted
label is the designated positive index 1; for any other prediction the
list is returned unchanged. -/
theorem c5_sign_flip (prediction : Nat) (ns : List ℚ) (i : Nat)
    (h : i < ns.length) :
    (signAdjust prediction ns).length = ns.length ∧
    (prediction = 1 → signAdjust prediction ns = ns.map (fun n => -1 * n)) ∧
    (prediction ≠ 1 → signAdjust prediction ns = ns) ∧
    (signAdjust prediction ns).get
        ⟨i, (signAdjust_length prediction ns).symm ▸ h⟩ =
      (if prediction = 1 then -(ns.get ⟨i, h⟩) else ns.get ⟨i, h⟩) := by
  refine ⟨signAdjust_length prediction ns, ?_, ?_, ?_⟩
  · intro hp
    unfold signAdjust
    rw [if_pos hp]
  · intro hp
    unfold signAdjust
    rw [if_neg hp]
  · by_cases hp : prediction = 1
    · rw [if_pos hp]
      have : signAdjust prediction ns = ns.map (fun n => -1 * n) := by
        unfold signAdjust
        rw [if_pos hp]
      simp only [List.get_eq_getElem] at *
      simp [this, neg_one_mul]
    · rw [if_neg hp]
      have : signAdjust prediction ns = ns := by
        unfold signAdjust
        rw [if_neg hp]
      simp only [List.get_eq_getElem] at *
      simp [this]

/-- Witness for C5 at prediction 1, raw importances `[2, -3]`, position 0. -/
theorem c5_sign_flip_witness :
    (signAdjust 1 [2, -3]).length = 2 ∧
    signAdjust 1 [2, -3] = ([2, -3] : List ℚ).map (fun n => -1 * n) := by
  have h := c5_sign_flip 1 [2, -3] 0 (by decide)
  exact ⟨h.1, h.2.1 rfl⟩

/-- C6: the importance ranking is the list of (position, raw score) pairs,
sorted ascending by raw score, while the normalized visualization sequence
is a position-by-position map over the original score sequence — entry `i`
is computed from the score at token position `i`, not from rank order. -/
theorem c6_ranking_and_alignment (m : InterpMethod) (prediction : Nat)
    (original_score : ℚ) (scores : List ℚ) :
    List.Perm (importanceRanking scores) scores.enum ∧
    List.Sorted rankLE (importanceRanking scores) ∧
    visualPipeline m prediction original_score scores =
      scores.map (fun s =>
        finalScore (signAdjust prediction
            (rawImportances m original_score scores))
          (adjOne prediction (rawOne m original_score s))) := by
  refine ⟨List.perm_insertionSort rankLE scores.enum,
    List.sorted_insertionSort rankLE scores.enum, ?_⟩
  unfold visualPipeline
  rw [center_normalize_eq_map]
  have hL : signAdjust prediction (rawImportances m original_score scores) =
      scores.map (fun s => adjOne prediction (rawOne m original_score s)) := by
    rw [signAdjust_eq_map, rawImportances_eq_map, List.map_map]
    rfl
  rw [hL, List.map_map]
  rfl

/-! ### Build phase, batch loop, neighbor queries -/

/-- C7 anti-claim (the code as written): the build phase of
`train_text_classifier.py` lines 168-174 constructs a single
nearest-neighbor structure over the pooled activation list — the vectors
of every layer share one structure and one consecutive identifier space,
instead of one structure per designated layer. -/
theorem c7_single_pooled_index (layer1 layer2 : List (List ℚ)) :
    (buildActivationTree (layer1 ++ layer2)).stored.map Prod.snd =
      List.range (layer1.length + layer2.length) ∧
    (buildActivationTree (layer1 ++ layer2)).stored.map Prod.fst =
      layer1 ++ layer2 := by
  unfold buildActivationTree
  constructor
  · rw [List.map_map]
    have hc : (Prod.snd ∘ fun p : ℕ × List ℚ => (p.2, p.1)) =
        (Prod.fst : ℕ × List ℚ → ℕ) := rfl
    rw [hc, List.enum_map_fst, List.length_append]
  · rw [List.map_map]
    have hc : (Prod.fst ∘ fun p : ℕ × List ℚ => (p.2, p.1)) =
        (Prod.snd : ℕ × List ℚ → List ℚ) := rfl
    rw [hc, List.enum_map_snd]

theorem leave_one_out_err {α σ : Type} (d : DkNN α σ) (b : Bool)
    (x : List α) (hx : x.length ≤ 1) :
    leave_one_out d x b = Except.error RankErr.degenerateSequence := by
  unfold leave_one_out
  rw [flatten_err x (by omega)]

theorem leave_one_out_ok_shape {α σ : Type} (d : DkNN α σ) (b : Bool)
    (x : List α) (hx : 1 < x.length) :
    ∃ r, leave_one_out d x b = Except.ok r := by
  unfold leave_one_out
  rw [flatten_ok x hx]
  exact ⟨_, rfl⟩

/-- C8 amended: in the batch loop a degenerate probe aborts the run — the
probes before it produce their results, the degenerate-sequence error
propagates, and the probes after it are never processed. -/
theorem c8_batch_abort (d : DkNN ℕ ℚ) (b : Bool)
    (pre post : List (List ℕ)) (bad : List ℕ)
    (hpre : ∀ x ∈ pre, 1 < x.length) (hbad : bad.length ≤ 1) :
    (runBatch d b (pre ++ bad :: post)).1.length = pre.length ∧
    (runBatch d b (pre ++ bad :: post)).2 =
      some RankErr.degenerateSequence := by
  induction pre with
  | nil =>
    simp only [List.nil_append, runBatch]
    rw [leave_one_out_err d b bad hbad]
    exact ⟨rfl, rfl⟩
  | cons x rest ih =>
    have hx := hpre x (List.mem_cons_self x rest)
    obtain ⟨r, hr⟩ := leave_one_out_ok_shape d b x hx
    have ih2 := ih (fun z hz => hpre z (List.mem_cons_of_mem x hz))
    simp only [List.cons_append, runBatch]
    rw [hr]
    dsimp only
    exact ⟨by simp [ih2.1], ih2.2⟩

/-- C8 counterexample: in the concrete batch `[[0,1], [5], [2,3]]` the
degenerate second probe stops the loop — only one result is produced and
the third probe, which succeeds on its own, is never processed. -/
theorem c8_batch_abort_counterexample :
    (runBatch dknn0 true [[0, 1], [5], [2, 3]]).1.length = 1 ∧
    (runBatch dknn0 true [[0, 1], [5], [2, 3]]).2 =
      some RankErr.degenerateSequence ∧
    (runBatch dknn0 true [[2, 3]]).2 = none ∧
    (runBatch dknn0 true [[2, 3]]).1.length = 1 := by
  refine ⟨?_, ?_, ?_, ?_⟩ <;> rfl

/-- Witness for the amended C8 with one good probe before and one after
the degenerate probe. -/
theorem c8_batch_abort_witness :
    (runBatch dknn0 true ([[0, 1]] ++ [5] :: [[2, 3]])).1.length = 1 ∧
    (runBatch dknn0 true ([[0, 1]] ++ [5] :: [[2, 3]])).2 =
      some RankErr.degenerateSequence :=
  c8_batch_abort dknn0 true [[0, 1]] [[2, 3]] [5] (by decide) (by decide)

/-- C9 amended: on an empty training set the build phase does fail, but
with the generic index error raised by reading `layers_act_list[0]`, not
with a distinguished empty-training-set error (no such error exists in the
source). -/
theorem c9_empty_build_index_error (f : List ℕ → Nat × List ℚ) :
    buildPhase f [] = Except.error BuildErr.indexOutOfRange ∧
    buildPhase f [] ≠ Except.error BuildErr.emptyTrainingSet ∧
    ∀ r, buildPhase f [] ≠ Except.ok r := by
  refine ⟨rfl, ?_, ?_⟩
  · intro hc
    have h : buildPhase f [] = Except.error BuildErr.indexOutOfRange := rfl
    rw [h] at hc
    injection hc with hc2
    exact BuildErr.noConfusion hc2
  · intro r hc
    have h : buildPhase f [] = Except.error BuildErr.indexOutOfRange := rfl
    rw [h] at hc
    exact Except.noConfusion hc

/-- Witness for the amended C9 at a concrete activation source. -/
theorem c9_empty_build_index_error_witness :
    buildPhase (fun _ => (1, [2])) [] =
      Except.error BuildErr.indexOutOfRange ∧
    buildPhase (fun _ => (1, [2])) [] ≠
      Except.error BuildErr.emptyTrainingSet := by
  have h := c9_empty_build_index_error (fun _ => (1, [2]))
  exact ⟨h.1, h.2.1⟩

/-- C9 counterexample: with a concrete activation source, the empty
training set makes the build fail with the index error, which is not the
distinguished empty-training-set error of the claim. -/
theorem c9_counterexample :
    buildPhase (fun _ => (0, [0])) [] =
      Except.error BuildErr.indexOutOfRange ∧
    BuildErr.indexOutOfRange ≠ BuildErr.emptyTrainingSet :=
  ⟨rfl, by decide⟩

/-- C10: after a successful build, every identifier returned by a
neighbor query is one of the identifiers stored at build time; the label
list is index-aligned with the stored vectors, so looking the identifier
up in it always succeeds. -/
theorem c10_neighbor_ids_valid (f : List ℕ → Nat × List ℚ)
    (train : List (List ℕ)) (nd : Nat) (e : Engine) (labels : List Nat)
    (q : List ℚ) (k : Nat)
    (hb : buildPhase f train = Except.ok (nd, e, labels))
    (p : List ℚ × Nat) (hp : p ∈ e.neighbours q k) :
    p.2 ∈ e.stored.map Prod.snd ∧
    labels.length = e.stored.length ∧
    p.2 < labels.length ∧
    ∃ lab, labels[p.2]? = some lab := by
  cases train with
  | nil => simp [buildPhase] at hb
  | cons a rest =>
    unfold buildPhase at hb
    simp only [List.map_cons, Except.ok.injEq, Prod.mk.injEq] at hb
    obtain ⟨-, he, hlab⟩ := hb
    have hmem : p ∈ e.stored := by
      have h1 : p ∈ List.insertionSort (nearerTo q) e.stored :=
        List.mem_of_mem_take hp
      simpa using h1
    have hstlen : e.stored.length = rest.length + 1 := by
      rw [← he]
      simp [buildActivationTree]
    have hlablen : labels.length = rest.length + 1 := by
      rw [← hlab]
      simp
    have hid : p.2 < rest.length + 1 := by
      rw [← he] at hmem
      unfold buildActivationTree at hmem
      simp only [List.mem_map] at hmem
      obtain ⟨pr, hpr, hpe⟩ := hmem
      have hq := List.mem_enum_iff_getElem?.mp hpr
      by_contra hcon
      push_neg at hcon
      have hlen : ((f a).2 :: rest.map (fun x => (f x).2)).length ≤ pr.1 := by
        have : pr.1 = p.2 := by
          rw [← hpe]
        simp only [List.length_cons, List.length_map]
        omega
      rw [List.getElem?_eq_none hlen] at hq
      exact Option.noConfusion hq
    refine ⟨List.mem_map_of_mem Prod.snd hmem, by omega, by omega, ?_⟩
    have hlt : p.2 < labels.length := by omega
    exact ⟨labels[p.2], List.getElem?_eq_getElem hlt⟩

/-- Witness for C10: build on the one-example training set `[[5]]`, query
`[5]` with k = 1; the returned identifier 0 is stored and its label lookup
succeeds. -/
theorem c10_neighbor_ids_valid_witness :
    (0 : ℕ) ∈
      (Engine.mk [(([((5 : ℕ) : ℚ)]), 0)]).stored.map Prod.snd ∧
    ([1] : List Nat).length =
      (Engine.mk [(([((5 : ℕ) : ℚ)]), 0)]).stored.length ∧
    (0 : ℕ) < ([1] : List Nat).length ∧
    ∃ lab, ([1] : List Nat)[(0 : ℕ)]? = some lab :=
  c10_neighbor_ids_valid f0 [[5]] 1
    (Engine.mk [(([((5 : ℕ) : ℚ)]), 0)]) [1]
    [((5 : ℕ) : ℚ)] 1 rfl ([((5 : ℕ) : ℚ)], 0)
    (by
      rw [show (Engine.mk [(([((5 : ℕ) : ℚ)]), 0)]).neighbours
          [((5 : ℕ) : ℚ)] 1 = [([((5 : ℕ) : ℚ)], 0)] from rfl]
      exact List.mem_singleton_self _)

end DeepKnn
